import Mathlib

/-!
Verification of the WHEN-language runtime (block execution engine and hot-reload
supervisor).  The definitions below are a shallow embedding of the Python source:
`interpreter.py` (block lifecycle, cooperative scheduling, parallel workers) and
`hot_reload.py` (change detection and state-transplanting reload).  Statement and
expression execution is modelled with an explicit fuel parameter; control-flow
exceptions (break / continue / exit / return) and genuine runtime errors are
modelled as an explicit outcome code.  Host-dependent behaviour (module imports,
`input`, attribute access on host objects, float division) is represented by a
dedicated error outcome; no claim below depends on it.
-/

namespace WhenRt

/-- Runtime values: the subset of Python values produced by the language's
literals and operators (ints, strings, booleans, None). -/
inductive Value where
  | int (n : Int)
  | str (s : String)
  | bool (b : Bool)
  | pynone
  deriving DecidableEq, Repr

/-- Genuine runtime errors, mirroring the exceptions the interpreter can raise
outside of control-flow signals. -/
inductive RtError where
  | nameError (n : String)
  | arityMismatch (n : String)
  | keyError (n : String)
  | indexError
  | typeError
  | valueError
  | notImplementedOp
  | floatUnmodeled
  | hostUnsupported
  deriving DecidableEq, Repr

/-- Outcome of executing a statement list: normal completion or an escaping
exception (BreakException, ContinueException, ExitException, ReturnException,
or a genuine error). -/
inductive Code where
  | normal
  | brk
  | cont
  | exitSig
  | ret (v : Value)
  | err (e : RtError)
  deriving DecidableEq, Repr

/-- Outcome of evaluating an expression: a value, or an escaping exception. -/
inductive ERes where
  | val (v : Value)
  | sig (c : Code)
  deriving DecidableEq, Repr

/-- Truthiness of a value, as Python's `if` uses it. -/
def truthy : Value → Bool
  | Value.int n => decide (n ≠ 0)
  | Value.str s => decide (s ≠ "")
  | Value.bool b => b
  | Value.pynone => false

/-- `apply_binary_op` from interpreter.py.  Integer arithmetic and comparisons
and string concatenation / equality are modelled; `/` produces a Python float
and is represented by a dedicated error outcome (no claim exercises it), as are
the remaining host-value combinations. -/
def applyBinaryOp (l : Value) (op : String) (r : Value) : Except RtError Value :=
  if op = "+" then
    match l, r with
    | Value.int a, Value.int b => Except.ok (Value.int (a + b))
    | Value.str a, Value.str b => Except.ok (Value.str (a ++ b))
    | _, _ => Except.error RtError.typeError
  else if op = "-" then
    match l, r with
    | Value.int a, Value.int b => Except.ok (Value.int (a - b))
    | _, _ => Except.error RtError.typeError
  else if op = "*" then
    match l, r with
    | Value.int a, Value.int b => Except.ok (Value.int (a * b))
    | _, _ => Except.error RtError.typeError
  else if op = "/" then Except.error RtError.floatUnmodeled
  else if op = "==" ∨ op = "eq" then Except.ok (Value.bool (decide (l = r)))
  else if op = "!=" ∨ op = "ne" then Except.ok (Value.bool (decide (l ≠ r)))
  else if op = "<" ∨ op = "lt" then
    match l, r with
    | Value.int a, Value.int b => Except.ok (Value.bool (decide (a < b)))
    | _, _ => Except.error RtError.typeError
  else if op = ">" ∨ op = "gt" then
    match l, r with
    | Value.int a, Value.int b => Except.ok (Value.bool (decide (b < a)))
    | _, _ => Except.error RtError.typeError
  else if op = "<=" ∨ op = "le" then
    match l, r with
    | Value.int a, Value.int b => Except.ok (Value.bool (decide (a ≤ b)))
    | _, _ => Except.error RtError.typeError
  else if op = ">=" ∨ op = "ge" then
    match l, r with
    | Value.int a, Value.int b => Except.ok (Value.bool (decide (b ≤ a)))
    | _, _ => Except.error RtError.typeError
  else Except.error RtError.notImplementedOp

/-- The `int(...)` builtin's conversion. -/
def intConv : Value → Except RtError Value
  | Value.int n => Except.ok (Value.int n)
  | Value.bool b => Except.ok (Value.int (if b then 1 else 0))
  | Value.str s =>
    match s.toInt? with
    | some n => Except.ok (Value.int n)
    | none => Except.error RtError.valueError
  | Value.pynone => Except.error RtError.typeError

/-- The `str(...)` builtin's conversion. -/
def strConv : Value → Value
  | Value.int n => Value.str (toString n)
  | Value.str s => Value.str s
  | Value.bool b => Value.str (if b then "True" else "False")
  | Value.pynone => Value.str "None"

mutual

/-- Expressions of the language (ast_nodes consumed by `eval_expression`). -/
inductive Expr where
  | num (n : Int)
  | strLit (s : String)
  | ident (name : String)
  | binOp (l : Expr) (op : String) (r : Expr)
  | call (name : String) (args : List Expr)
  | start (blockName : String)
  | stop (blockName : String)
  | member (obj : Expr) (m : String)
  | methodCall (obj : Expr) (m : String) (args : List Expr)

/-- Statements of the language (ast_nodes consumed by `execute_statement`). -/
inductive Stmt where
  | exprStmt (e : Expr)
  | assign (name : String) (value : Expr)
  | whenStmt (cond : Expr) (body : List Stmt)
  | brk
  | cont
  | exitStmt
  | pass
  | ret (value : Option Expr)

end

/-- A function declaration (`FuncDeclaration`). -/
structure FuncDecl where
  name : String
  params : List String
  body : List Stmt

/-- Top-level declarations of a parsed program. -/
inductive Decl where
  | var (name : String) (value : Expr)
  | func (f : FuncDecl)
  | imp (module : String) (aliasName : Option String)
  | fromImp (module : String) (names : List String) (aliases : List (Option String))

/-- Block definitions as produced by the parser (`OSBlock`, `DEBlock`,
`FOBlock`, `ParallelDEBlock`, `ParallelFOBlock`). -/
inductive BlockDef where
  | osB (name : String) (body : List Stmt)
  | deB (name : String) (body : List Stmt) (iterations : Nat)
  | foB (name : String) (body : List Stmt)
  | pdeB (name : String) (body : List Stmt) (iterations : Nat)
  | pfoB (name : String) (body : List Stmt)

/-- Name of a block definition. -/
def blockDefName : BlockDef → String
  | BlockDef.osB n _ => n
  | BlockDef.deB n _ _ => n
  | BlockDef.foB n _ => n
  | BlockDef.pdeB n _ _ => n
  | BlockDef.pfoB n _ => n

/-- An immutable parsed program (`Program`): declarations, block definitions,
and the entry (main) block's body. -/
structure Program where
  declarations : List Decl
  blocks : List BlockDef
  main : List Stmt

/-- Block lifecycle status (`BlockStatus`). -/
inductive BlockStatus where
  | stopped
  | running
  | completed
  deriving DecidableEq, Repr

/-- Block kind: `"os"` (immediate), `"de"` (bounded), `"fo"` (unbounded). -/
inductive BlockType where
  | os
  | de
  | fo
  deriving DecidableEq, Repr

/-- A live block descriptor (`Block` in interpreter.py).  The Python
`threading.Thread` handle is modelled by a `threadLive` flag and the
`threading.Event` cancellation flag by `shouldStop`. -/
structure Block where
  name : String
  body : List Stmt
  iterations : Option Nat
  currentIteration : Nat
  status : BlockStatus
  blockType : BlockType
  isParallel : Bool
  threadLive : Bool
  shouldStop : Bool

/-- `Block.__init__`: freshly constructed descriptor. -/
def mkBlock (name : String) (body : List Stmt) (iterations : Option Nat)
    (ty : BlockType) (par : Bool) : Block :=
  ⟨name, body, iterations, 0, BlockStatus.stopped, ty, par, false, false⟩

/-- Descriptor construction from a parsed definition; this single dispatch is
performed identically at registration (`Interpreter.interpret`) and at reload
(`HotReloader._update_blocks`). -/
def mkFromDef : BlockDef → Block
  | BlockDef.osB n body => mkBlock n body none BlockType.os false
  | BlockDef.pdeB n body iters => mkBlock n body (some iters) BlockType.de true
  | BlockDef.pfoB n body => mkBlock n body none BlockType.fo true
  | BlockDef.deB n body iters => mkBlock n body (some iters) BlockType.de false
  | BlockDef.foB n body => mkBlock n body none BlockType.fo false

/-- Insertion-ordered dictionary lookup (Python dict access). -/
def lookupA {α : Type} : List (String × α) → String → Option α
  | [], _ => none
  | (k2, v) :: rest, k => if k2 = k then some v else lookupA rest k

/-- Insertion-ordered dictionary update: replace in place, else append
(Python dict assignment). -/
def insertA {α : Type} : List (String × α) → String → α → List (String × α)
  | [], k, v => [(k, v)]
  | (k2, v2) :: rest, k, v =>
    if k2 = k then (k, v) :: rest else (k2, v2) :: insertA rest k v

/-- Dictionary deletion (Python `del`). -/
def eraseA {α : Type} : List (String × α) → String → List (String × α)
  | [], _ => []
  | (k2, v2) :: rest, k => if k2 = k then rest else (k2, v2) :: eraseA rest k

/-- The interpreter's mutable state (`Interpreter.__init__`): the shared
variable table, function table, block registry, cooperative run set and the
global exit flag. -/
structure InterpState where
  globalVars : List (String × Value)
  functions : List (String × FuncDecl)
  blocks : List (String × Block)
  runningBlocks : List String
  exitRequested : Bool

/-- A fresh interpreter state. -/
def emptyState : InterpState := ⟨[], [], [], [], false⟩

/-- `Interpreter.stop_block`.  Unknown names return silently; a parallel block
gets its cancellation flag raised and status forced to Stopped (the join is a
timing detail with no effect on this state); a cooperative block is removed
from the run set and marked Stopped only if it is in the run set. -/
def stopBlock (st : InterpState) (name : String) : InterpState :=
  match lookupA st.blocks name with
  | none => st
  | some b =>
    if b.isParallel then
      let b1 := { b with shouldStop := true, status := BlockStatus.stopped }
      { st with blocks := insertA st.blocks name b1 }
    else
      if name ∈ st.runningBlocks then
        { st with
            blocks := insertA st.blocks name ({ b with status := BlockStatus.stopped }),
            runningBlocks := st.runningBlocks.erase name }
      else st

/-- The names handled by the builtin branch of `Interpreter.call_function`. -/
def builtinNames : List String := ["print", "sleep", "input", "int", "str", "exit"]

mutual

/-- `Interpreter.eval_expression`. -/
def evalExpr : Nat → InterpState → Expr → Option (InterpState × ERes)
  | 0, _, _ => none
  | fuel + 1, st, e =>
    match e with
    | Expr.num n => some (st, ERes.val (Value.int n))
    | Expr.strLit s => some (st, ERes.val (Value.str s))
    | Expr.ident name =>
      match lookupA st.globalVars name with
      | some v => some (st, ERes.val v)
      | none => some (st, ERes.sig (Code.err (RtError.nameError name)))
    | Expr.binOp l op r =>
      match evalExpr fuel st l with
      | none => none
      | some (st1, ERes.sig c) => some (st1, ERes.sig c)
      | some (st1, ERes.val vl) =>
        match evalExpr fuel st1 r with
        | none => none
        | some (st2, ERes.sig c) => some (st2, ERes.sig c)
        | some (st2, ERes.val vr) =>
          match applyBinaryOp vl op vr with
          | Except.ok v => some (st2, ERes.val v)
          | Except.error er => some (st2, ERes.sig (Code.err er))
    | Expr.call name args => callFunction fuel st name args
    | Expr.start bn =>
      match startBlock fuel st bn with
      | none => none
      | some (st1, Code.normal) => some (st1, ERes.val Value.pynone)
      | some (st1, c) => some (st1, ERes.sig c)
    | Expr.stop bn => some (stopBlock st bn, ERes.val Value.pynone)
    | Expr.member obj _ =>
      match evalExpr fuel st obj with
      | none => none
      | some (st1, ERes.sig c) => some (st1, ERes.sig c)
      | some (st1, ERes.val _) =>
        some (st1, ERes.sig (Code.err RtError.hostUnsupported))
    | Expr.methodCall obj _ _ =>
      match evalExpr fuel st obj with
      | none => none
      | some (st1, ERes.sig c) => some (st1, ERes.sig c)
      | some (st1, ERes.val _) =>
        some (st1, ERes.sig (Code.err RtError.hostUnsupported))

/-- Left-to-right evaluation of an argument list (used by `print`). -/
def evalArgs : Nat → InterpState → List Expr → Option (InterpState × Option Code)
  | 0, _, _ => none
  | _ + 1, st, [] => some (st, none)
  | fuel + 1, st, a :: rest =>
    match evalExpr fuel st a with
    | none => none
    | some (st1, ERes.sig c) => some (st1, some c)
    | some (st1, ERes.val _) => evalArgs fuel st1 rest

/-- Parameter binding of a user-defined function call: each argument is
evaluated in the current state and bound into the live table before the next
argument is evaluated (`call_function`'s binding loop). -/
def bindParams : Nat → InterpState → List String → List Expr →
    Option (InterpState × Option Code)
  | 0, _, _, _ => none
  | _ + 1, st, [], _ => some (st, none)
  | _ + 1, st, _, [] => some (st, none)
  | fuel + 1, st, p :: ps, a :: argsRest =>
    match evalExpr fuel st a with
    | none => none
    | some (st1, ERes.sig c) => some (st1, some c)
    | some (st1, ERes.val v) =>
      bindParams fuel { st1 with globalVars := insertA st1.globalVars p v } ps argsRest

/-- `Interpreter.call_function`: builtins first, then registered blocks
(executed synchronously once), then user-defined functions with whole-table
save/restore, else a NameError. -/
def callFunction : Nat → InterpState → String → List Expr → Option (InterpState × ERes)
  | 0, _, _, _ => none
  | fuel + 1, st, name, args =>
    if name = "print" then
      match evalArgs fuel st args with
      | none => none
      | some (st1, some c) => some (st1, ERes.sig c)
      | some (st1, none) => some (st1, ERes.val Value.pynone)
    else if name = "sleep" then
      match args with
      | [] => some (st, ERes.val Value.pynone)
      | a :: _ =>
        match evalExpr fuel st a with
        | none => none
        | some (st1, ERes.sig c) => some (st1, ERes.sig c)
        | some (st1, ERes.val _) => some (st1, ERes.val Value.pynone)
    else if name = "input" then
      match args with
      | [] => some (st, ERes.sig (Code.err RtError.hostUnsupported))
      | a :: _ =>
        match evalExpr fuel st a with
        | none => none
        | some (st1, ERes.sig c) => some (st1, ERes.sig c)
        | some (st1, ERes.val _) =>
          some (st1, ERes.sig (Code.err RtError.hostUnsupported))
    else if name = "int" then
      match args with
      | [] => some (st, ERes.sig (Code.err RtError.indexError))
      | a :: _ =>
        match evalExpr fuel st a with
        | none => none
        | some (st1, ERes.sig c) => some (st1, ERes.sig c)
        | some (st1, ERes.val v) =>
          match intConv v with
          | Except.ok v2 => some (st1, ERes.val v2)
          | Except.error er => some (st1, ERes.sig (Code.err er))
    else if name = "str" then
      match args with
      | [] => some (st, ERes.sig (Code.err RtError.indexError))
      | a :: _ =>
        match evalExpr fuel st a with
        | none => none
        | some (st1, ERes.sig c) => some (st1, ERes.sig c)
        | some (st1, ERes.val v) => some (st1, ERes.val (strConv v))
    else if name = "exit" then
      some ({ st with exitRequested := true }, ERes.sig Code.exitSig)
    else
      match lookupA st.blocks name with
      | some b =>
        match execStatements fuel st b.body with
        | none => none
        | some (st1, Code.normal) => some (st1, ERes.val Value.pynone)
        | some (st1, c) => some (st1, ERes.sig c)
      | none =>
        match lookupA st.functions name with
        | some f =>
          if args.length ≠ f.params.length then
            some (st, ERes.sig (Code.err (RtError.arityMismatch name)))
          else
            let saved := st.globalVars
            match bindParams fuel st f.params args with
            | none => none
            | some (st1, some c) => some (st1, ERes.sig c)
            | some (st1, none) =>
              match execStatements fuel st1 f.body with
              | none => none
              | some (st2, Code.normal) =>
                some ({ st2 with globalVars := saved }, ERes.val Value.pynone)
              | some (st2, Code.ret v) =>
                some ({ st2 with globalVars := saved }, ERes.val v)
              | some (st2, c) =>
                some ({ st2 with globalVars := saved }, ERes.sig c)
        | none => some (st, ERes.sig (Code.err (RtError.nameError name)))

/-- `Interpreter.execute_statement`. -/
def execStatement : Nat → InterpState → Stmt → Option (InterpState × Code)
  | 0, _, _ => none
  | fuel + 1, st, s =>
    match s with
    | Stmt.exprStmt e =>
      match evalExpr fuel st e with
      | none => none
      | some (st1, ERes.val _) => some (st1, Code.normal)
      | some (st1, ERes.sig c) => some (st1, c)
    | Stmt.assign name e =>
      match evalExpr fuel st e with
      | none => none
      | some (st1, ERes.sig c) => some (st1, c)
      | some (st1, ERes.val v) =>
        some ({ st1 with globalVars := insertA st1.globalVars name v }, Code.normal)
    | Stmt.whenStmt cond body =>
      match evalExpr fuel st cond with
      | none => none
      | some (st1, ERes.sig c) => some (st1, c)
      | some (st1, ERes.val v) =>
        if truthy v then execStatements fuel st1 body else some (st1, Code.normal)
    | Stmt.brk => some (st, Code.brk)
    | Stmt.cont => some (st, Code.cont)
    | Stmt.exitStmt => some ({ st with exitRequested := true }, Code.exitSig)
    | Stmt.pass => some (st, Code.normal)
    | Stmt.ret value =>
      match value with
      | none => some (st, Code.ret Value.pynone)
      | some e =>
        match evalExpr fuel st e with
        | none => none
        | some (st1, ERes.sig c) => some (st1, c)
        | some (st1, ERes.val v) => some (st1, Code.ret v)

/-- `Interpreter.execute_statements`: run statements in order, stopping at the
first escaping exception. -/
def execStatements : Nat → InterpState → List Stmt → Option (InterpState × Code)
  | 0, _, _ => none
  | _ + 1, st, [] => some (st, Code.normal)
  | fuel + 1, st, s :: rest =>
    match execStatement fuel st s with
    | none => none
    | some (st1, Code.normal) => execStatements fuel st1 rest
    | some (st1, c) => some (st1, c)

/-- `Interpreter.start_block`.  Unknown names raise NameError; an os (immediate)
block executes its body synchronously and never enters scheduling; otherwise the
block is reset (`Block.reset`) and marked Running, a parallel block gets a fresh
worker, and a cooperative block is added to the run set without duplicates. -/
def startBlock : Nat → InterpState → String → Option (InterpState × Code)
  | 0, _, _ => none
  | fuel + 1, st, name =>
    match lookupA st.blocks name with
    | none => some (st, Code.err (RtError.nameError name))
    | some b =>
      if b.blockType = BlockType.os then
        match execStatements fuel st b.body with
        | none => none
        | some (st1, c) => some (st1, c)
      else
        let reset := { b with
          currentIteration := 0,
          status := BlockStatus.stopped,
          shouldStop := b.threadLive }
        let started := { reset with status := BlockStatus.running }
        if b.isParallel then
          let spawned := { started with threadLive := true }
          some ({ st with blocks := insertA st.blocks name spawned }, Code.normal)
        else
          let st1 := { st with blocks := insertA st.blocks name started }
          some ({ st1 with runningBlocks :=
              if name ∈ st1.runningBlocks then st1.runningBlocks
              else st1.runningBlocks ++ [name] }, Code.normal)

end

/-- True when a bounded block has already reached its bound (the guard
`block.iterations is not None and block.current_iteration >= block.iterations`
at the top of `execute_block_iteration`). -/
def atBound (b : Block) : Bool :=
  match b.iterations with
  | some n => decide (n ≤ b.currentIteration)
  | none => false

/-- Mark a block Completed and drop it from the run set (the over-run guard
branch of `execute_block_iteration`). -/
def markCompleted (st : InterpState) (name : String) : InterpState :=
  match lookupA st.blocks name with
  | none => st
  | some b =>
    let b1 := { b with status := BlockStatus.completed }
    { st with blocks := insertA st.blocks name b1,
              runningBlocks := st.runningBlocks.erase name }

/-- Mark a block Stopped and drop it from the run set (the BreakException
handler of `execute_block_iteration`). -/
def markStopped (st : InterpState) (name : String) : InterpState :=
  match lookupA st.blocks name with
  | none => st
  | some b =>
    let b1 := { b with status := BlockStatus.stopped }
    { st with blocks := insertA st.blocks name b1,
              runningBlocks := st.runningBlocks.erase name }

/-- Post-body bookkeeping shared by the normal-completion and ContinueException
paths of `execute_block_iteration`: for a bounded block, increment the counter
and, on reaching the bound, mark Completed and leave the run set. -/
def afterBodyCount (st : InterpState) (name : String) : InterpState :=
  match lookupA st.blocks name with
  | none => st
  | some b =>
    match b.iterations with
    | none => st
    | some bound =>
      let b1 := { b with currentIteration := b.currentIteration + 1 }
      if bound ≤ b1.currentIteration then
        let b2 := { b1 with status := BlockStatus.completed }
        { st with blocks := insertA st.blocks name b2,
                  runningBlocks := st.runningBlocks.erase name }
      else
        { st with blocks := insertA st.blocks name b1 }

/-- `Interpreter.execute_block_iteration`.  The returned code is the exception
(if any) escaping the call — Continue and Break are absorbed here; the boolean
records whether the block's body was executed. -/
def executeBlockIteration (fuel : Nat) (st : InterpState) (name : String) :
    Option (InterpState × Code × Bool) :=
  match lookupA st.blocks name with
  | none => some (st, Code.normal, false)
  | some b =>
    if b.status = BlockStatus.running then
      if atBound b then
        some (markCompleted st name, Code.normal, false)
      else
        match execStatements fuel st b.body with
        | none => none
        | some (st1, Code.normal) => some (afterBodyCount st1 name, Code.normal, true)
        | some (st1, Code.cont) => some (afterBodyCount st1 name, Code.normal, true)
        | some (st1, Code.brk) => some (markStopped st1 name, Code.normal, true)
        | some (st1, c) => some (st1, c, true)
    else
      some (st, Code.normal, false)

/-- The cooperative dispatch loop of `execute_main`: one iteration for every
name in the snapshot of the run set, in list order.  The trace records each
name examined together with whether it was dispatched (status still Running);
an exception escaping a dispatch aborts the loop. -/
def dispatchBlocks (fuel : Nat) (st : InterpState) :
    List String → Option (InterpState × Code × List (String × Bool))
  | [] => some (st, Code.normal, [])
  | n :: rest =>
    match lookupA st.blocks n with
    | none => some (st, Code.err (RtError.keyError n), [])
    | some b =>
      if b.status = BlockStatus.running then
        match executeBlockIteration fuel st n with
        | none => none
        | some (st1, Code.normal, _) =>
          match dispatchBlocks fuel st1 rest with
          | none => none
          | some (st2, c, tr) => some (st2, c, (n, true) :: tr)
        | some (st1, c, _) => some (st1, c, [(n, true)])
      else
        match dispatchBlocks fuel st rest with
        | none => none
        | some (st2, c, tr) => some (st2, c, (n, false) :: tr)

/-- One pass of `Interpreter.execute_main`'s scheduling loop: execute the entry
block's body, then — only if it completed normally — one iteration of every
block in the run-set snapshot taken at that point.  A Continue or Break raised
by the entry body skips the dispatch loop for this pass (caught by
`execute_main`'s handlers); Exit and genuine errors escape. -/
def schedulingPass (fuel : Nat) (st : InterpState) (mainBody : List Stmt) :
    Option (InterpState × Code × List (String × Bool)) :=
  match execStatements fuel st mainBody with
  | none => none
  | some (st1, Code.normal) => dispatchBlocks fuel st1 st1.runningBlocks
  | some (st1, c) => some (st1, c, [])

/-- Iterate `execute_block_iteration` on one block a given number of times,
requiring each call to return without an escaping exception; the second
component counts how many of the calls actually executed the body. -/
def dispatchN (fuel : Nat) (st : InterpState) (name : String) :
    Nat → Option (InterpState × Nat)
  | 0 => some (st, 0)
  | k + 1 =>
    match executeBlockIteration fuel st name with
    | some (st1, Code.normal, ex) =>
      match dispatchN fuel st1 name k with
      | some (st2, m) => some (st2, (if ex then 1 else 0) + m)
      | none => none
    | _ => none

/-- Block registration performed by `Interpreter.interpret`: one descriptor per
parsed definition, keyed by name in program order. -/
def registerBlocks (st : InterpState) (bds : List BlockDef) : InterpState :=
  bds.foldl
    (fun s bd => { s with blocks := insertA s.blocks (blockDefName bd) (mkFromDef bd) })
    st

/-! ### Parallel executor (`run_parallel_block`) -/

/-- Set a block's status field (the worker's `finally` clause writes
Completed through its object reference). -/
def setBlockStatus (st : InterpState) (name : String) (s : BlockStatus) : InterpState :=
  match lookupA st.blocks name with
  | none => st
  | some b => { st with blocks := insertA st.blocks name ({ b with status := s }) }

/-- `block.current_iteration += 1` inside the worker loop. -/
def bumpWorkerCount (st : InterpState) (name : String) : InterpState :=
  match lookupA st.blocks name with
  | none => st
  | some b =>
    let b1 := { b with currentIteration := b.currentIteration + 1 }
    { st with blocks := insertA st.blocks name b1 }

/-- The bounded (`"de"`) worker loop of `run_parallel_block`: repeat while the
count is below the bound, no cancellation was requested and no global exit is
pending.  A BreakException ends the loop; a ContinueException counts the
iteration; any other escaping exception is caught by the worker's outer
handler and logged (second component `true`).  The inter-iteration sleep has
no effect on this state. -/
def workerLoopDE (fuel : Nat) (st : InterpState) (name : String) :
    Option (InterpState × Bool) :=
  match fuel with
  | 0 => none
  | f + 1 =>
    match lookupA st.blocks name with
    | none => some (st, false)
    | some b =>
      match b.iterations with
      | none => some (st, true)
      | some bound =>
        if b.currentIteration < bound ∧ b.shouldStop = false ∧ st.exitRequested = false then
          match execStatements f st b.body with
          | none => none
          | some (st1, Code.normal) => workerLoopDE f (bumpWorkerCount st1 name) name
          | some (st1, Code.cont) => workerLoopDE f (bumpWorkerCount st1 name) name
          | some (st1, Code.brk) => some (st1, false)
          | some (st1, _) => some (st1, true)
        else some (st, false)

/-- The unbounded (`"fo"`) worker loop of `run_parallel_block`: repeat until
cancellation or global exit; BreakException ends the loop; ContinueException
proceeds; any other escaping exception is caught and logged. -/
def workerLoopFO (fuel : Nat) (st : InterpState) (name : String) :
    Option (InterpState × Bool) :=
  match fuel with
  | 0 => none
  | f + 1 =>
    match lookupA st.blocks name with
    | none => some (st, false)
    | some b =>
      if b.shouldStop = false ∧ st.exitRequested = false then
        match execStatements f st b.body with
        | none => none
        | some (st1, Code.normal) => workerLoopFO f st1 name
        | some (st1, Code.cont) => workerLoopFO f st1 name
        | some (st1, Code.brk) => some (st1, false)
        | some (st1, _) => some (st1, true)
      else some (st, false)

/-- `Interpreter.run_parallel_block`: the function a parallel worker runs.  It
never lets an exception escape — errors are logged (boolean result) — and its
`finally` clause always writes status Completed on whatever terminal path the
loop took. -/
def runParallelBlock (fuel : Nat) (st : InterpState) (name : String) :
    Option (InterpState × Bool) :=
  match lookupA st.blocks name with
  | none => some (st, false)
  | some b =>
    let r := match b.blockType with
      | BlockType.de => workerLoopDE fuel st name
      | BlockType.fo => workerLoopFO fuel st name
      | BlockType.os => some (st, false)
    match r with
    | none => none
    | some (st1, logged) => some (setBlockStatus st1 name BlockStatus.completed, logged)

/-! ### Hot reload supervisor (`hot_reload.py`) -/

/-- `FileState`: the freshness signature of the watched source (modification
time modelled as ticks, md5 digest as its hex string). -/
structure FileState where
  path : String
  lastModified : Nat
  contentHash : String
  deriving DecidableEq, Repr

/-- The trigger condition of `HotReloader._watch_loop`: a reload fires when the
modification time differs or the content digest differs from the last observed
`FileState`. -/
def shouldReload (last cur : FileState) : Bool :=
  decide (cur.lastModified ≠ last.lastModified) || decide (cur.contentHash ≠ last.contentHash)

/-- The freshness signature proper: the (modification time, content digest)
pair of a `FileState`. -/
def signature (fs : FileState) : Nat × String := (fs.lastModified, fs.contentHash)

/-- `HotReloader._preserve_block_state`: snapshot name, iteration count and
status of every Running block (`was_running` is always true and is dropped). -/
def preserveBlockState (st : InterpState) : List (String × Nat × BlockStatus) :=
  st.blocks.filterMap
    (fun nb =>
      if nb.2.status = BlockStatus.running then
        some (nb.1, nb.2.currentIteration, nb.2.status)
      else none)

/-- `HotReloader._update_declarations`: function declarations are replaced by
name, variable declarations are skipped to preserve runtime state, and import
declarations touch the host environment (modelled as a failure outcome that the
reload's outer handler will catch). -/
def updateDeclarations (st : InterpState) : List Decl → InterpState × Option RtError
  | [] => (st, none)
  | d :: rest =>
    match d with
    | Decl.func f =>
      updateDeclarations { st with functions := insertA st.functions f.name f } rest
    | Decl.var _ _ => updateDeclarations st rest
    | Decl.imp _ _ => (st, some RtError.hostUnsupported)
    | Decl.fromImp _ _ _ => (st, some RtError.hostUnsupported)

/-- The carry-over of `HotReloader._update_blocks`: the fresh descriptor for a
definition, inheriting iteration count and status from an existing descriptor
of the same name if that one is currently Running. -/
def carryOver (old : Option Block) (bd : BlockDef) : Block :=
  let nb := mkFromDef bd
  match old with
  | some oldB =>
    if oldB.status = BlockStatus.running then
      { nb with currentIteration := oldB.currentIteration, status := oldB.status }
    else nb
  | none => nb

/-- One step of `_update_blocks`'s replacement loop: build the replacement
descriptor for a definition (carrying Running state of a same-named existing
block) and install it in the registry. -/
def installBlock (s : InterpState) (bd : BlockDef) : InterpState :=
  { s with blocks :=
      insertA s.blocks (blockDefName bd) (carryOver (lookupA s.blocks (blockDefName bd)) bd) }

/-- One step of `_update_blocks`'s removal loop: drop a vanished name from the
run set (when present) and delete its registry entry. -/
def removeBlock (s : InterpState) (n : String) : InterpState :=
  { s with runningBlocks := s.runningBlocks.erase n, blocks := eraseA s.blocks n }

/-- `HotReloader._update_blocks`: install a replacement descriptor for every
definition in the new program (carrying state from Running blocks of the same
name), then drop every registry entry whose name is absent from the new source,
removing such names from the run set as well. -/
def updateBlocksR (st : InterpState) (prog : Program) : InterpState :=
  let stIns := prog.blocks.foldl installBlock st
  let newNames := prog.blocks.map blockDefName
  let toRemove := (stIns.blocks.map Prod.fst).filter (fun n => decide (n ∉ newNames))
  toRemove.foldl removeBlock stIns

/-- `HotReloader._restore_block_state`: write the preserved iteration count and
status back onto the (possibly replaced) descriptor of each preserved name
still present, and put the name back into the cooperative run set if absent. -/
def restoreBlockState (st : InterpState) :
    List (String × Nat × BlockStatus) → InterpState
  | [] => st
  | (n, cnt, stat) :: rest =>
    match lookupA st.blocks n with
    | none => restoreBlockState st rest
    | some b =>
      let b1 := { b with currentIteration := cnt, status := stat }
      let st1 := { st with
        blocks := insertA st.blocks n b1,
        runningBlocks :=
          if n ∈ st.runningBlocks then st.runningBlocks
          else st.runningBlocks ++ [n] }
      restoreBlockState st1 rest

/-- `HotReloader._reload_blocks`: preserve Running-block state, reparse the
source (the parse outcome is passed in, the front end being external), merge
declarations and blocks, restore preserved state.  Every failure is caught by
the surrounding handler: the boolean result reports success (`[HOT RELOAD]
Successfully reloaded`) versus reported failure (`[HOT RELOAD] Error
reloading`), and no exception ever escapes. -/
def reloadBlocks (st : InterpState) (parseResult : Except String Program) :
    InterpState × Bool :=
  let preserved := preserveBlockState st
  match parseResult with
  | Except.error _ => (st, false)
  | Except.ok prog =>
    match updateDeclarations st prog.declarations with
    | (st1, some _) => (st1, false)
    | (st1, none) =>
      let st2 := updateBlocksR st1 prog
      let st3 := restoreBlockState st2 preserved
      (st3, true)

/-- True when a declaration list contains no import declarations (whose
handling touches the host environment). -/
def importFree : List Decl → Bool
  | [] => true
  | Decl.imp _ _ :: _ => false
  | Decl.fromImp _ _ _ :: _ => false
  | _ :: rest => importFree rest

/-! ### Concrete scenario states used by individual claims -/

/-- A program with two bounded cooperative blocks registered in the order
`A`, `B`, whose entry body starts them in the opposite order. -/
def progStartOrder : Program :=
  ⟨[], [BlockDef.deB "A" [Stmt.pass] 5, BlockDef.deB "B" [Stmt.pass] 5],
   [Stmt.exprStmt (Expr.start "B"), Stmt.exprStmt (Expr.start "A")]⟩

/-- A program consisting of a single parallel unbounded block `p`. -/
def progParallelOnly : Program := ⟨[], [BlockDef.pfoB "p" [Stmt.pass]], [Stmt.pass]⟩

/-- State right after `start("p")` on `progParallelOnly`: the worker has been
spawned and has not yet terminated, so the descriptor's status is Running. -/
def parallelStartedState : InterpState :=
  ((startBlock 10 (registerBlocks emptyState progParallelOnly.blocks) "p").getD
    (emptyState, Code.normal)).1

/-- State after a hot reload of the unchanged `progParallelOnly` source
performed while the parallel block was Running. -/
def parallelReloadedState : InterpState :=
  (reloadBlocks parallelStartedState (Except.ok progParallelOnly)).1

/-- State right after `start("z")` where `z` is a bounded cooperative block
with bound 0 and an empty body. -/
def boundZeroStartedState : InterpState :=
  ((startBlock 10 (registerBlocks emptyState [BlockDef.deB "z" [] 0]) "z").getD
    (emptyState, Code.normal)).1

/-- A parallel bounded block with bound 2 whose body immediately breaks,
in Running state as its worker sees it. -/
def breakWorkerBlock : Block :=
  { mkFromDef (BlockDef.pdeB "p" [Stmt.brk] 2) with status := BlockStatus.running }

/-- Interpreter state owning only `breakWorkerBlock`. -/
def breakWorkerState : InterpState := ⟨[], [], [("p", breakWorkerBlock)], [], false⟩

/-- A parallel unbounded block whose body immediately breaks, in Running
state as its worker sees it. -/
def breakWorkerBlockFO : Block :=
  { mkFromDef (BlockDef.pfoB "f" [Stmt.brk]) with status := BlockStatus.running }

/-- Interpreter state owning only `breakWorkerBlockFO`. -/
def breakWorkerStateFO : InterpState := ⟨[], [], [("f", breakWorkerBlockFO)], [], false⟩

/-- A parallel unbounded block that has already finished (status Completed,
cancellation flag clear). -/
def completedParallelBlock : Block :=
  { mkFromDef (BlockDef.pfoB "q" [Stmt.pass]) with status := BlockStatus.completed }

/-- Interpreter state owning only `completedParallelBlock`. -/
def completedParallelState : InterpState := ⟨[], [], [("q", completedParallelBlock)], [], false⟩

/-- A parallel bounded block whose body dereferences an undefined variable
(raising a NameError on the first iteration of its worker loop). -/
def errorWorkerBlockDE : Block :=
  { mkFromDef (BlockDef.pdeB "p" [Stmt.exprStmt (Expr.ident "nope")] 3) with
    status := BlockStatus.running }

/-- Interpreter state owning only `errorWorkerBlockDE`. -/
def errorWorkerStateDE : InterpState := ⟨[], [], [("p", errorWorkerBlockDE)], [], false⟩

/-- A parallel unbounded block whose body raises the same NameError. -/
def errorWorkerBlockFO : Block :=
  { mkFromDef (BlockDef.pfoB "p" [Stmt.exprStmt (Expr.ident "nope")]) with
    status := BlockStatus.running }

/-- Interpreter state owning only `errorWorkerBlockFO`. -/
def errorWorkerStateFO : InterpState := ⟨[], [], [("p", errorWorkerBlockFO)], [], false⟩

/-- A cooperative block whose body assigns `x = 1`, used to exercise the
block branch of `call_function`. -/
def blockCallBlock : Block :=
  mkFromDef (BlockDef.foB "blk" [Stmt.assign "x" (Expr.num 1)])

/-- Interpreter state owning only `blockCallBlock` (a user function of the
same name could be added without affecting the call's behaviour). -/
def blockCallState : InterpState := ⟨[], [], [("blk", blockCallBlock)], [], false⟩

/-- A running unbounded cooperative block with an empty body. -/
def passWitnessBlock : Block :=
  { mkFromDef (BlockDef.foB "w" []) with status := BlockStatus.running }

/-- State with `passWitnessBlock` alone in the run set. -/
def passWitnessState : InterpState := ⟨[], [], [("w", passWitnessBlock)], ["w"], false⟩

/-- A block descriptor with a given iteration count and status Running. -/
def runningAt (b : Block) (k : Nat) : Block :=
  { b with currentIteration := k, status := BlockStatus.running }

/-- A block descriptor with a given iteration count and status Completed. -/
def completedAt (b : Block) (k : Nat) : Block :=
  { b with currentIteration := k, status := BlockStatus.completed }

/-- A started bounded cooperative block (bound 2, empty body, Running). -/
def boundTwoBlock : Block :=
  { mkFromDef (BlockDef.deB "w" [] 2) with status := BlockStatus.running }

/-- State with `boundTwoBlock` alone in the run set. -/
def boundTwoState : InterpState := ⟨[], [], [("w", boundTwoBlock)], ["w"], false⟩

/-- A Running bounded block mid-run (count 3 of bound 5), about to be
hot-reloaded. -/
def reloadWitnessOld : Block :=
  { mkFromDef (BlockDef.deB "c" [Stmt.pass] 5) with
    status := BlockStatus.running, currentIteration := 3 }

/-- State owning `reloadWitnessOld`, with `c` in the run set. -/
def reloadWitnessState : InterpState := ⟨[], [], [("c", reloadWitnessOld)], ["c"], false⟩

/-- A reparsed program carrying a new body (and a new bound) for block `c`. -/
def reloadWitnessProg : Program :=
  ⟨[], [BlockDef.deB "c" [Stmt.pass, Stmt.pass] 2], [Stmt.pass]⟩

/-! ### Dictionary lemmas -/

theorem lookupA_insertA_self {α : Type} (l : List (String × α)) (k : String) (v : α) :
    lookupA (insertA l k v) k = some v := by
  induction l with
  | nil => simp [insertA, lookupA]
  | cons hd t ih =>
    obtain ⟨k2, v2⟩ := hd
    by_cases hk : k2 = k
    · simp [insertA, hk, lookupA]
    · simp [insertA, hk, lookupA, ih]

theorem lookupA_insertA_ne {α : Type} (l : List (String × α)) (k k2 : String) (v : α)
    (h : k ≠ k2) : lookupA (insertA l k v) k2 = lookupA l k2 := by
  induction l with
  | nil => simp [insertA, lookupA, h]
  | cons hd t ih =>
    obtain ⟨k3, v3⟩ := hd
    by_cases hk : k3 = k
    · subst hk
      simp [insertA, lookupA, h]
    · simp [insertA, hk, lookupA, ih]

theorem lookupA_eraseA_ne {α : Type} (l : List (String × α)) (k k2 : String)
    (h : k ≠ k2) : lookupA (eraseA l k) k2 = lookupA l k2 := by
  induction l with
  | nil => simp [eraseA, lookupA]
  | cons hd t ih =>
    obtain ⟨k3, v3⟩ := hd
    by_cases hk : k3 = k
    · subst hk
      simp [eraseA, lookupA, h]
    · simp [eraseA, hk, lookupA, ih]

theorem lookupA_mem {α : Type} (l : List (String × α)) (k : String) (v : α)
    (h : lookupA l k = some v) : (k, v) ∈ l := by
  induction l with
  | nil => simp [lookupA] at h
  | cons hd t ih =>
    obtain ⟨k2, v2⟩ := hd
    by_cases hk : k2 = k
    · subst hk
      simp [lookupA] at h
      simp [h]
    · simp [lookupA, hk] at h
      exact List.mem_cons_of_mem _ (ih h)

theorem mem_lookupA_of_nodup {α : Type} (l : List (String × α)) (k : String) (v : α)
    (hnd : (l.map Prod.fst).Nodup) (h : (k, v) ∈ l) : lookupA l k = some v := by
  induction l with
  | nil => simp at h
  | cons hd t ih =>
    obtain ⟨k2, v2⟩ := hd
    simp only [List.map_cons, List.nodup_cons] at hnd
    rcases List.mem_cons.mp h with heq | hmem
    · injection heq with h1 h2
      subst h1
      subst h2
      simp [lookupA]
    · have hk : k2 ≠ k := by
        intro he
        subst he
        exact hnd.1 (by simpa using List.mem_map_of_mem Prod.fst hmem)
      simp [lookupA, hk]
      exact ih hnd.2 hmem

/-! ### Claim C3 — change detection -/

/-- Claim C3 (amended): the watcher triggers a reload exactly when the
freshness signature (modification time, content digest) of the current file
state differs from the last observed one; since the signature includes the
modification time, a touched-but-unchanged file (modification time changed,
digest identical) also has a different signature and therefore does trigger a
reload. -/
theorem watchLoop_triggers_iff_signature_differs (last cur : FileState) :
    (shouldReload last cur = true ↔ signature cur ≠ signature last) ∧
    (cur.contentHash = last.contentHash → cur.lastModified ≠ last.lastModified →
      shouldReload last cur = true) := by
  constructor
  · have h1 : shouldReload last cur = true ↔
        (cur.lastModified ≠ last.lastModified ∨ cur.contentHash ≠ last.contentHash) := by
      simp [shouldReload]
    have h2 : (signature cur ≠ signature last) ↔
        (cur.lastModified ≠ last.lastModified ∨ cur.contentHash ≠ last.contentHash) := by
      simp only [signature, Ne, Prod.mk.injEq, not_and_or]
    rw [h1, h2]
  · intro hh hm
    simp [shouldReload, hm]

/-- Claim C3's counterexample: a touched-but-unchanged file — same content
digest, different modification time — does trigger a reload, contradicting the
claim's assertion that it does not. -/
theorem watchLoop_counterexample_touched_file :
    (FileState.mk "w.when" 2 "d41d8").contentHash =
      (FileState.mk "w.when" 1 "d41d8").contentHash ∧
    (FileState.mk "w.when" 2 "d41d8").lastModified ≠
      (FileState.mk "w.when" 1 "d41d8").lastModified ∧
    shouldReload (FileState.mk "w.when" 1 "d41d8") (FileState.mk "w.when" 2 "d41d8") = true := by
  refine ⟨rfl, by decide, by decide⟩

/-- Witness for the C3 theorem at a concrete pair of file states. -/
theorem watchLoop_triggers_witness :
    shouldReload (FileState.mk "a" 3 "h1") (FileState.mk "a" 7 "h1") = true ∧
    (shouldReload (FileState.mk "a" 3 "h1") (FileState.mk "a" 3 "h1") = true ↔
      signature (FileState.mk "a" 3 "h1") ≠ signature (FileState.mk "a" 3 "h1")) := by
  constructor
  · exact (watchLoop_triggers_iff_signature_differs (FileState.mk "a" 3 "h1")
      (FileState.mk "a" 7 "h1")).2 rfl (by decide)
  · exact (watchLoop_triggers_iff_signature_differs (FileState.mk "a" 3 "h1")
      (FileState.mk "a" 3 "h1")).1

/-! ### Claim C4 — parse failure aborts the reload cleanly -/

/-- Claim C4: if reparsing the source during a reload attempt fails, the
reload aborts with the interpreter state — every block's status, iteration
count, registry membership and run-set membership — exactly as it was, the
failure is reported (result flag `false`), and no exception escapes
(`reloadBlocks` is a total function). -/
theorem reload_parse_failure_leaves_state_untouched (st : InterpState) (msg : String) :
    reloadBlocks st (Except.error msg) = (st, false) := rfl

/-! ### Claim C8 — stop on a non-Running block -/

/-- Claim C8 (amended): `stop(name)` is a no-op on an unregistered name and on
a cooperative block that is not in the run set; but on a parallel block it
unconditionally raises the cancellation flag and forces status Stopped,
whatever the previous status was, leaving all other state unchanged. -/
theorem stopBlock_noop_and_parallel_effect (st : InterpState) (name : String) (b : Block) :
    (lookupA st.blocks name = none → stopBlock st name = st) ∧
    (lookupA st.blocks name = some b → b.isParallel = false →
      name ∉ st.runningBlocks → stopBlock st name = st) ∧
    (lookupA st.blocks name = some b → b.isParallel = true →
      lookupA (stopBlock st name).blocks name =
        some { b with shouldStop := true, status := BlockStatus.stopped } ∧
      (stopBlock st name).runningBlocks = st.runningBlocks ∧
      (stopBlock st name).globalVars = st.globalVars ∧
      (stopBlock st name).exitRequested = st.exitRequested ∧
      (∀ m, m ≠ name → lookupA (stopBlock st name).blocks m = lookupA st.blocks m)) := by
  refine ⟨?_, ?_, ?_⟩
  · intro h
    simp [stopBlock, h]
  · intro h hpar hmem
    simp [stopBlock, h, hpar, hmem]
  · intro h hpar
    have hred : stopBlock st name =
        { st with blocks :=
            insertA st.blocks name { b with shouldStop := true, status := BlockStatus.stopped } } := by
      simp [stopBlock, h, hpar]
    rw [hred]
    refine ⟨lookupA_insertA_self _ _ _, rfl, rfl, rfl, ?_⟩
    intro m hm
    exact lookupA_insertA_ne _ _ _ _ (Ne.symm hm)

/-- Witness for the C8 theorem: the cooperative no-op case on a stopped
cooperative block absent from the run set, and the parallel case on the
concrete completed parallel block. -/
theorem stopBlock_noop_witness :
    stopBlock (InterpState.mk [] [] [("c", mkBlock "c" [] none BlockType.fo false)] [] false)
      "c" = InterpState.mk [] [] [("c", mkBlock "c" [] none BlockType.fo false)] [] false ∧
    lookupA (stopBlock completedParallelState "q").blocks "q" =
      some { completedParallelBlock with
        shouldStop := true, status := BlockStatus.stopped } := by
  constructor
  · exact (stopBlock_noop_and_parallel_effect _ "c"
      (mkBlock "c" [] none BlockType.fo false)).2.1 rfl rfl (by decide)
  · exact ((stopBlock_noop_and_parallel_effect completedParallelState "q"
      completedParallelBlock).2.2 rfl rfl).1

/-- Claim C8's counterexample: `stop` on a registered parallel block whose
status is Completed (hence not Running) is not a no-op — it flips the status
to Stopped and raises the cancellation flag. -/
theorem stopBlock_counterexample_completed_parallel :
    (lookupA completedParallelState.blocks "q").map Block.status =
      some BlockStatus.completed ∧
    (lookupA completedParallelState.blocks "q").map Block.shouldStop = some false ∧
    (lookupA (stopBlock completedParallelState "q").blocks "q").map Block.status =
      some BlockStatus.stopped ∧
    (lookupA (stopBlock completedParallelState "q").blocks "q").map Block.shouldStop =
      some true := by
  refine ⟨rfl, rfl, ?_, ?_⟩ <;> rfl

/-! ### Claim C5 — the run-set / worker / bound invariant -/

/-- Claim C5's failing run: start the parallel unbounded block `p` (its worker
is live and its status Running), then hot-reload the unchanged source.
`_restore_block_state` appends `p` to the cooperative run set without checking
`is_parallel`, so the reachable post-reload state has a parallel block's name
in the cooperative run set — and its Running replacement descriptor owns no
live worker — violating the claimed invariant. -/
theorem reload_violates_run_set_invariant :
    (lookupA parallelStartedState.blocks "p").map Block.isParallel = some true ∧
    (lookupA parallelStartedState.blocks "p").map Block.status =
      some BlockStatus.running ∧
    parallelStartedState.runningBlocks = [] ∧
    (reloadBlocks parallelStartedState (Except.ok progParallelOnly)).2 = true ∧
    parallelReloadedState.runningBlocks = ["p"] ∧
    (lookupA parallelReloadedState.blocks "p").map Block.isParallel = some true ∧
    (lookupA parallelReloadedState.blocks "p").map Block.status =
      some BlockStatus.running ∧
    (lookupA parallelReloadedState.blocks "p").map Block.threadLive = some false := by
  refine ⟨rfl, rfl, rfl, rfl, rfl, rfl, rfl, rfl⟩

/-! ### Claim C1 — bounded cooperative blocks complete after N iterations -/

/-- Claim C1's counterexample at bound N = 0: immediately after `start`, with
exactly zero completed scheduling iterations, the block's status is Running
(not Completed) and its name is in the cooperative run set; it only becomes
Completed on its first dispatch. -/
theorem boundZero_counterexample_running_after_start :
    (lookupA boundZeroStartedState.blocks "z").map Block.iterations = some (some 0) ∧
    (lookupA boundZeroStartedState.blocks "z").map Block.currentIteration = some 0 ∧
    (lookupA boundZeroStartedState.blocks "z").map Block.status =
      some BlockStatus.running ∧
    boundZeroStartedState.runningBlocks = ["z"] ∧
    BlockStatus.running ≠ BlockStatus.completed := by
  refine ⟨rfl, rfl, rfl, rfl, by decide⟩

/-! ### Claim C7 — break semantics -/

/-- Claim C7 (amended): a break raised during an iteration of a bounded or
unbounded cooperative block immediately sets its status to Stopped and removes
it from the run set, even when iterations remain before the bound; in a
parallel worker a break likewise ends the worker loop immediately — the
iteration count is not incremented — but the worker's cleanup writes terminal
status Completed, not Stopped. -/
theorem break_stops_cooperative_completes_parallel (fuel : Nat) (st st1 : InterpState)
    (name : String) (b b1 : Block) (N : Nat) :
    (lookupA st.blocks name = some b → b.status = BlockStatus.running →
     (∀ n, b.iterations = some n → b.currentIteration < n) →
     execStatements fuel st b.body = some (st1, Code.brk) →
     lookupA st1.blocks name = some b1 →
     st1.runningBlocks.count name ≤ 1 →
     ∃ st2, executeBlockIteration fuel st name = some (st2, Code.normal, true) ∧
       (lookupA st2.blocks name).map Block.status = some BlockStatus.stopped ∧
       name ∉ st2.runningBlocks) ∧
    (lookupA st.blocks name = some b → b.blockType = BlockType.de →
     b.iterations = some N → b.currentIteration < N →
     b.shouldStop = false → st.exitRequested = false →
     execStatements fuel st b.body = some (st1, Code.brk) →
     lookupA st1.blocks name = some b1 →
     runParallelBlock (fuel + 1) st name =
       some (setBlockStatus st1 name BlockStatus.completed, false) ∧
     (lookupA (setBlockStatus st1 name BlockStatus.completed).blocks name).map
       Block.status = some BlockStatus.completed ∧
     (lookupA (setBlockStatus st1 name BlockStatus.completed).blocks name).map
       Block.currentIteration = some b1.currentIteration) ∧
    (lookupA st.blocks name = some b → b.blockType = BlockType.fo →
     b.shouldStop = false → st.exitRequested = false →
     execStatements fuel st b.body = some (st1, Code.brk) →
     lookupA st1.blocks name = some b1 →
     runParallelBlock (fuel + 1) st name =
       some (setBlockStatus st1 name BlockStatus.completed, false) ∧
     (lookupA (setBlockStatus st1 name BlockStatus.completed).blocks name).map
       Block.status = some BlockStatus.completed ∧
     (lookupA (setBlockStatus st1 name BlockStatus.completed).blocks name).map
       Block.currentIteration = some b1.currentIteration) := by
  refine ⟨?_, ?_, ?_⟩
  · intro hb hrun hguard hbody hb1 hcnt
    have hnb : atBound b = false := by
      unfold atBound
      cases hit : b.iterations with
      | none => rfl
      | some n =>
        simp only [decide_eq_false_iff_not, Nat.not_le]
        exact hguard n hit
    have hred : executeBlockIteration fuel st name =
        some (markStopped st1 name, Code.normal, true) := by
      simp [executeBlockIteration, hb, hrun, hnb, hbody]
    have hms : markStopped st1 name =
        { st1 with blocks := insertA st1.blocks name { b1 with status := BlockStatus.stopped },
                   runningBlocks := st1.runningBlocks.erase name } := by
      simp [markStopped, hb1]
    refine ⟨markStopped st1 name, hred, ?_, ?_⟩
    · rw [hms]
      simp [lookupA_insertA_self]
    · rw [hms]
      have hz : (st1.runningBlocks.erase name).count name = 0 := by
        have := List.count_erase_self name st1.runningBlocks
        omega
      simpa using List.count_eq_zero.mp hz
  · intro hb hde hN hlt hss hex hbody hb1
    have hloop : workerLoopDE (fuel + 1) st name = some (st1, false) := by
      simp [workerLoopDE, hb, hN, hlt, hss, hex, hbody]
    have hrun : runParallelBlock (fuel + 1) st name =
        some (setBlockStatus st1 name BlockStatus.completed, false) := by
      simp [runParallelBlock, hb, hde, hloop]
    refine ⟨hrun, ?_, ?_⟩ <;> simp [setBlockStatus, hb1, lookupA_insertA_self]
  · intro hb hfo hss hex hbody hb1
    have hloop : workerLoopFO (fuel + 1) st name = some (st1, false) := by
      simp [workerLoopFO, hb, hss, hex, hbody]
    have hrun : runParallelBlock (fuel + 1) st name =
        some (setBlockStatus st1 name BlockStatus.completed, false) := by
      simp [runParallelBlock, hb, hfo, hloop]
    refine ⟨hrun, ?_, ?_⟩ <;> simp [setBlockStatus, hb1, lookupA_insertA_self]

/-- Claim C7's counterexample: a parallel bounded block (bound 2, current
count 0) whose body breaks on its first iteration ends its worker loop at
once, but its terminal status is Completed — not Stopped as the claim
states; an unbounded parallel block with the same break body likewise ends
Completed. -/
theorem break_counterexample_parallel_completed :
    (runParallelBlock 10 breakWorkerState "p").map
        (fun r => ((lookupA r.1.blocks "p").map Block.status,
                   (lookupA r.1.blocks "p").map Block.currentIteration, r.2)) =
      some (some BlockStatus.completed, some 0, false) ∧
    (lookupA breakWorkerState.blocks "p").map Block.iterations = some (some 2) ∧
    (runParallelBlock 10 breakWorkerStateFO "f").map
        (fun r => (lookupA r.1.blocks "f").map Block.status) =
      some (some BlockStatus.completed) ∧
    BlockStatus.completed ≠ BlockStatus.stopped := by
  refine ⟨rfl, rfl, rfl, by decide⟩

/-- Witness for the C7 theorem on the concrete break-bodied blocks, bounded
and unbounded. -/
theorem break_semantics_witness :
    (∃ st2, executeBlockIteration 2 breakWorkerState "p" = some (st2, Code.normal, true) ∧
      (lookupA st2.blocks "p").map Block.status = some BlockStatus.stopped ∧
      "p" ∉ st2.runningBlocks) ∧
    runParallelBlock 3 breakWorkerState "p" =
      some (setBlockStatus breakWorkerState "p" BlockStatus.completed, false) ∧
    runParallelBlock 3 breakWorkerStateFO "f" =
      some (setBlockStatus breakWorkerStateFO "f" BlockStatus.completed, false) := by
  have h := break_stops_cooperative_completes_parallel 2 breakWorkerState breakWorkerState
    "p" breakWorkerBlock breakWorkerBlock 2
  have hf := break_stops_cooperative_completes_parallel 2 breakWorkerStateFO
    breakWorkerStateFO "f" breakWorkerBlockFO breakWorkerBlockFO 0
  refine ⟨?_, ?_, ?_⟩
  · exact h.1 rfl rfl (by decide) rfl rfl (by decide)
  · exact (h.2.1 rfl rfl rfl (by decide) rfl rfl rfl rfl).1
  · exact (hf.2.2 rfl rfl rfl rfl rfl rfl).1

/-! ### Claim C9 — error containment in parallel workers -/

/-- Claim C9: a genuine error escaping the body of a parallel worker (bounded
or unbounded) ends that worker's loop at once; the worker function catches it
(it returns normally — no exception escapes to the scheduler), logs the
failure, and its cleanup marks the block Completed; every other block's
descriptor, the cooperative run set, the shared table and the exit flag are
exactly as the failed body iteration left them — no other worker or the
cooperative scheduler is affected. -/
theorem worker_error_contained (fuel : Nat) (st st1 : InterpState) (name : String)
    (b b1 : Block) (N : Nat) (e : RtError) :
    (lookupA st.blocks name = some b → b.blockType = BlockType.de →
     b.iterations = some N → b.currentIteration < N →
     b.shouldStop = false → st.exitRequested = false →
     execStatements fuel st b.body = some (st1, Code.err e) →
     lookupA st1.blocks name = some b1 →
     runParallelBlock (fuel + 1) st name =
       some (setBlockStatus st1 name BlockStatus.completed, true) ∧
     (lookupA (setBlockStatus st1 name BlockStatus.completed).blocks name).map
       Block.status = some BlockStatus.completed ∧
     (∀ m, m ≠ name →
       lookupA (setBlockStatus st1 name BlockStatus.completed).blocks m =
         lookupA st1.blocks m) ∧
     (setBlockStatus st1 name BlockStatus.completed).runningBlocks = st1.runningBlocks ∧
     (setBlockStatus st1 name BlockStatus.completed).globalVars = st1.globalVars ∧
     (setBlockStatus st1 name BlockStatus.completed).exitRequested = st1.exitRequested) ∧
    (lookupA st.blocks name = some b → b.blockType = BlockType.fo →
     b.shouldStop = false → st.exitRequested = false →
     execStatements fuel st b.body = some (st1, Code.err e) →
     lookupA st1.blocks name = some b1 →
     runParallelBlock (fuel + 1) st name =
       some (setBlockStatus st1 name BlockStatus.completed, true) ∧
     (lookupA (setBlockStatus st1 name BlockStatus.completed).blocks name).map
       Block.status = some BlockStatus.completed) := by
  constructor
  · intro hb hde hN hlt hss hex hbody hb1
    have hloop : workerLoopDE (fuel + 1) st name = some (st1, true) := by
      simp [workerLoopDE, hb, hN, hlt, hss, hex, hbody]
    have hrun : runParallelBlock (fuel + 1) st name =
        some (setBlockStatus st1 name BlockStatus.completed, true) := by
      simp [runParallelBlock, hb, hde, hloop]
    refine ⟨hrun, ?_, ?_, ?_, ?_, ?_⟩
    · simp [setBlockStatus, hb1, lookupA_insertA_self]
    · intro m hm
      simp only [setBlockStatus, hb1]
      exact lookupA_insertA_ne _ _ _ _ (Ne.symm hm)
    · simp [setBlockStatus, hb1]
    · simp [setBlockStatus, hb1]
    · simp [setBlockStatus, hb1]
  · intro hb hfo hss hex hbody hb1
    have hloop : workerLoopFO (fuel + 1) st name = some (st1, true) := by
      simp [workerLoopFO, hb, hss, hex, hbody]
    have hrun : runParallelBlock (fuel + 1) st name =
        some (setBlockStatus st1 name BlockStatus.completed, true) := by
      simp [runParallelBlock, hb, hfo, hloop]
    exact ⟨hrun, by simp [setBlockStatus, hb1, lookupA_insertA_self]⟩

/-- Witness for the C9 theorem: the NameError-raising bodies, bounded and
unbounded, both retire their own worker with status Completed and the error
logged. -/
theorem worker_error_contained_witness :
    runParallelBlock 4 errorWorkerStateDE "p" =
      some (setBlockStatus errorWorkerStateDE "p" BlockStatus.completed, true) ∧
    runParallelBlock 4 errorWorkerStateFO "p" =
      some (setBlockStatus errorWorkerStateFO "p" BlockStatus.completed, true) := by
  constructor
  · exact ((worker_error_contained 3 errorWorkerStateDE errorWorkerStateDE "p"
      errorWorkerBlockDE errorWorkerBlockDE 3 (RtError.nameError "nope")).1
      rfl rfl rfl (by decide) rfl rfl rfl rfl).1
  · exact ((worker_error_contained 3 errorWorkerStateFO errorWorkerStateFO "p"
      errorWorkerBlockFO errorWorkerBlockFO 0 (RtError.nameError "nope")).2
      rfl rfl rfl rfl rfl rfl).1

/-! ### Claim C10 — calling a block by name executes its body once -/

/-- Claim C10: evaluating a call whose callee name is a registered block (any
kind, cooperative or parallel) — and is not shadowed by a builtin — executes
that block's body synchronously exactly once and returns None; the resulting
state is exactly the state the single body execution produced, so when the
body itself leaves the block's descriptor and the run set alone, status,
iteration count and run-set membership are unchanged.  The block branch is
taken without consulting the function table, so it takes precedence over a
user-defined function of the same name. -/
theorem block_call_runs_body_once (fuel : Nat) (st st1 : InterpState) (name : String)
    (args : List Expr) (b : Block)
    (hb : lookupA st.blocks name = some b)
    (hnb : ¬ name ∈ builtinNames)
    (hbody : execStatements fuel st b.body = some (st1, Code.normal))
    (hfr1 : lookupA st1.blocks name = lookupA st.blocks name)
    (hfr2 : st1.runningBlocks = st.runningBlocks) :
    callFunction (fuel + 1) st name args = some (st1, ERes.val Value.pynone) ∧
    lookupA st1.blocks name = some b ∧
    st1.runningBlocks = st.runningBlocks := by
  have h1 : name ≠ "print" := by intro h; exact hnb (by simp [builtinNames, h])
  have h2 : name ≠ "sleep" := by intro h; exact hnb (by simp [builtinNames, h])
  have h3 : name ≠ "input" := by intro h; exact hnb (by simp [builtinNames, h])
  have h4 : name ≠ "int" := by intro h; exact hnb (by simp [builtinNames, h])
  have h5 : name ≠ "str" := by intro h; exact hnb (by simp [builtinNames, h])
  have h6 : name ≠ "exit" := by intro h; exact hnb (by simp [builtinNames, h])
  refine ⟨?_, hfr1 ▸ hb, hfr2⟩
  simp [callFunction, h1, h2, h3, h4, h5, h6, hb, hbody]

/-- Witness for the C10 theorem: a block `blk` whose body assigns a global is
called with an (ignored) argument; the call returns None and only the global
table changed. -/
theorem block_call_runs_body_once_witness :
    callFunction 4 blockCallState "blk" [Expr.num 99] =
      some ({ blockCallState with globalVars := [("x", Value.int 1)] },
            ERes.val Value.pynone) ∧
    lookupA blockCallState.blocks "blk" = some blockCallBlock := by
  have h := block_call_runs_body_once 3 blockCallState
    { blockCallState with globalVars := [("x", Value.int 1)] }
    "blk" [Expr.num 99] blockCallBlock rfl (by decide) rfl rfl rfl
  exact ⟨h.1, h.2.1⟩

/-! ### Claim C6 — what one scheduling pass dispatches, and in which order -/

/-- When the cooperative dispatch loop completes without an escaping
exception, its trace covers exactly the names of the run-set snapshot it was
given, in snapshot order. -/
theorem dispatchBlocks_normal_trace (fuel : Nat) :
    ∀ (names : List String) (st st2 : InterpState) (tr : List (String × Bool)),
      dispatchBlocks fuel st names = some (st2, Code.normal, tr) →
      tr.map Prod.fst = names := by
  intro names
  induction names with
  | nil =>
    intro st st2 tr h
    simp only [dispatchBlocks, Option.some.injEq, Prod.mk.injEq] at h
    rw [← h.2.2]
    simp
  | cons n rest ih =>
    intro st st2 tr h
    cases hl : lookupA st.blocks n with
    | none =>
      simp [dispatchBlocks, hl] at h
    | some b =>
      by_cases hs : b.status = BlockStatus.running
      · cases he : executeBlockIteration fuel st n with
        | none =>
          simp [dispatchBlocks, hl, hs, he] at h
        | some r =>
          obtain ⟨stm, c, ex⟩ := r
          cases c with
          | normal =>
            cases hd : dispatchBlocks fuel stm rest with
            | none =>
              simp [dispatchBlocks, hl, hs, he, hd] at h
            | some r2 =>
              obtain ⟨st2x, c2, tr2⟩ := r2
              simp only [dispatchBlocks, hl, hs, he, hd, if_true, eq_self_iff_true,
                Option.some.injEq, Prod.mk.injEq] at h
              obtain ⟨hst, hc, htr⟩ := h
              subst hc
              rw [← htr]
              simp only [List.map_cons, List.cons.injEq]
              exact ⟨by trivial, ih stm st2x tr2 hd⟩
          | brk => simp [dispatchBlocks, hl, hs, he] at h
          | cont => simp [dispatchBlocks, hl, hs, he] at h
          | exitSig => simp [dispatchBlocks, hl, hs, he] at h
          | ret v => simp [dispatchBlocks, hl, hs, he] at h
          | err e => simp [dispatchBlocks, hl, hs, he] at h
      · cases hd : dispatchBlocks fuel st rest with
        | none =>
          simp [dispatchBlocks, hl, hs, hd] at h
        | some r2 =>
          obtain ⟨st2x, c2, tr2⟩ := r2
          simp only [dispatchBlocks, hl, hs, hd, if_neg, if_false,
            Option.some.injEq, Prod.mk.injEq] at h
          obtain ⟨hst, hc, htr⟩ := h
          subst hc
          rw [← htr]
          simp only [List.map_cons, List.cons.injEq]
          exact ⟨by trivial, ih st st2x tr2 hd⟩

/-- Claim C6 (amended): a scheduling pass whose entry-body execution completes
normally dispatches one iteration to each block of the run-set snapshot taken
right after the entry body — in the snapshot's order, which is the order the
names entered the run set (start order), not registration order; blocks no
longer Running when reached are examined but skipped, and a Continue or Break
from the entry body skips the dispatch loop for the pass entirely. -/
theorem scheduling_pass_covers_snapshot_in_order (fuel : Nat)
    (st st1 st2 : InterpState) (mainBody : List Stmt) (tr : List (String × Bool))
    (h1 : execStatements fuel st mainBody = some (st1, Code.normal))
    (h2 : dispatchBlocks fuel st1 st1.runningBlocks = some (st2, Code.normal, tr)) :
    schedulingPass fuel st mainBody = some (st2, Code.normal, tr) ∧
    tr.map Prod.fst = st1.runningBlocks := by
  constructor
  · simp [schedulingPass, h1, h2]
  · exact dispatchBlocks_normal_trace fuel _ _ _ _ h2

/-- Claim C6's counterexample: blocks are registered in program order `A`, `B`
but started in the order `B`, `A`; the pass dispatches them in start order
`B`, `A`, not registration order `A`, `B`. -/
theorem scheduling_order_counterexample :
    (schedulingPass 20 (registerBlocks emptyState progStartOrder.blocks)
        progStartOrder.main).map (fun r => r.2.2.map Prod.fst) = some ["B", "A"] ∧
    progStartOrder.blocks.map blockDefName = ["A", "B"] ∧
    (["B", "A"] : List String) ≠ ["A", "B"] := by
  refine ⟨rfl, rfl, by decide⟩

/-- Witness for the C6 theorem: with one running block `w` and a trivially
normal entry body, the pass dispatches exactly `w`. -/
theorem scheduling_pass_covers_snapshot_witness :
    schedulingPass 3 passWitnessState [Stmt.pass] =
      some (passWitnessState, Code.normal, [("w", true)]) ∧
    [("w", true)].map Prod.fst = passWitnessState.runningBlocks :=
  scheduling_pass_covers_snapshot_in_order 3 passWitnessState passWitnessState
    passWitnessState [Stmt.pass] [("w", true)] rfl rfl

/-! ### Claim C1 — the positive completion theorem -/

/-- Post-body bookkeeping when the incremented count reaches the bound. -/
theorem afterBodyCount_completes (s1 : InterpState) (name : String) (bb : Block) (N : Nat)
    (hl : lookupA s1.blocks name = some bb) (hN : bb.iterations = some N)
    (hge : N ≤ bb.currentIteration + 1) :
    afterBodyCount s1 name =
      { s1 with
        blocks := insertA s1.blocks name ({ bb with
          currentIteration := bb.currentIteration + 1, status := BlockStatus.completed }),
        runningBlocks := s1.runningBlocks.erase name } := by
  simp [afterBodyCount, hl, hN, hge]

/-- Post-body bookkeeping when the incremented count is still below the bound. -/
theorem afterBodyCount_continues (s1 : InterpState) (name : String) (bb : Block) (N : Nat)
    (hl : lookupA s1.blocks name = some bb) (hN : bb.iterations = some N)
    (hlt : bb.currentIteration + 1 < N) :
    afterBodyCount s1 name =
      { s1 with
        blocks := insertA s1.blocks name ({ bb with
          currentIteration := bb.currentIteration + 1 }) } := by
  simp [afterBodyCount, hl, hN, Nat.not_le.mpr hlt]

/-- Induction core for claim C1: from a Running bounded block with `m`
iterations left (count `N - m`), `m` dispatches whose bodies finish normally
or with a continue signal drive the count to `N`, mark the block Completed,
and remove it from the run set. -/
theorem dispatchN_completes_aux (fuel : Nat) (name : String) (b : Block) (N : Nat)
    (hN : b.iterations = some N)
    (H : ∀ s : InterpState, ∃ s1 c, execStatements fuel s b.body = some (s1, c) ∧
        (c = Code.normal ∨ c = Code.cont) ∧
        lookupA s1.blocks name = lookupA s.blocks name ∧
        s1.runningBlocks.count name = s.runningBlocks.count name) :
    ∀ m : Nat, 1 ≤ m → m ≤ N →
    ∀ st : InterpState,
      lookupA st.blocks name = some (runningAt b (N - m)) →
      st.runningBlocks.count name = 1 →
      ∃ stN, dispatchN fuel st name m = some (stN, m) ∧
        lookupA stN.blocks name = some (completedAt b N) ∧
        stN.runningBlocks.count name = 0 := by
  intro m
  induction m with
  | zero => omega
  | succ k ih =>
    intro _ hle st hlook hcnt
    obtain ⟨s1, c, hex, hc, hpre, hcntp⟩ := H st
    have hnb : atBound (runningAt b (N - (k + 1))) = false := by
      simp only [runningAt, atBound, hN, decide_eq_false_iff_not, Nat.not_le]
      omega
    have hbody : (runningAt b (N - (k + 1))).body = b.body := rfl
    have hstatus : (runningAt b (N - (k + 1))).status = BlockStatus.running := rfl
    have hstep : executeBlockIteration fuel st name =
        some (afterBodyCount s1 name, Code.normal, true) := by
      rcases hc with rfl | rfl
      · simp [executeBlockIteration, hlook, hstatus, hbody, hnb, hex]
      · simp [executeBlockIteration, hlook, hstatus, hbody, hnb, hex]
    have hl1 : lookupA s1.blocks name = some (runningAt b (N - (k + 1))) :=
      hpre.trans hlook
    have hiter : (runningAt b (N - (k + 1))).iterations = some N := hN
    have hcur : (runningAt b (N - (k + 1))).currentIteration = N - (k + 1) := rfl
    rcases Nat.eq_zero_or_pos k with hk0 | hkpos
    · subst hk0
      have hafter : afterBodyCount s1 name =
          { s1 with
            blocks := insertA s1.blocks name ({ runningAt b (N - 1) with
              currentIteration := (runningAt b (N - 1)).currentIteration + 1,
              status := BlockStatus.completed }),
            runningBlocks := s1.runningBlocks.erase name } :=
        afterBodyCount_completes s1 name (runningAt b (N - 1)) N hl1 hN (by
          rw [hcur]
          omega)
      have hblockEq : ({ runningAt b (N - 1) with
          currentIteration := (runningAt b (N - 1)).currentIteration + 1,
          status := BlockStatus.completed }) = completedAt b N := by
        simp only [runningAt, completedAt]
        congr 1
        omega
      rw [hblockEq] at hafter
      refine ⟨afterBodyCount s1 name, ?_, ?_, ?_⟩
      · simp [dispatchN, hstep]
      · rw [hafter]
        exact lookupA_insertA_self _ _ _
      · rw [hafter]
        have hc1 : s1.runningBlocks.count name = 1 := by rw [hcntp, hcnt]
        have := List.count_erase_self name s1.runningBlocks
        simp only
        omega
    · have hafter : afterBodyCount s1 name =
          { s1 with
            blocks := insertA s1.blocks name ({ runningAt b (N - (k + 1)) with
              currentIteration := (runningAt b (N - (k + 1))).currentIteration + 1 }) } :=
        afterBodyCount_continues s1 name (runningAt b (N - (k + 1))) N hl1 hN (by
          rw [hcur]
          omega)
      have hblockEq : ({ runningAt b (N - (k + 1)) with
          currentIteration := (runningAt b (N - (k + 1))).currentIteration + 1 }) =
          runningAt b (N - k) := by
        simp only [runningAt]
        congr 1
        omega
      rw [hblockEq] at hafter
      have hlookNext : lookupA (afterBodyCount s1 name).blocks name =
          some (runningAt b (N - k)) := by
        rw [hafter]
        exact lookupA_insertA_self _ _ _
      have hcntNext : (afterBodyCount s1 name).runningBlocks.count name = 1 := by
        rw [hafter]
        simp only
        rw [hcntp, hcnt]
      obtain ⟨stN, hd, hfin1, hfin2⟩ :=
        ih hkpos (by omega) (afterBodyCount s1 name) hlookNext hcntNext
      refine ⟨stN, ?_, hfin1, hfin2⟩
      simp [dispatchN, hstep, hd, Nat.add_comm]

/-- Claim C1 (amended): a bounded cooperative block with bound N ≥ 1, freshly
started (count 0, Running, in the run set once) and whose body never raises a
break and never starts or stops this block, is Completed with count N and its
name out of the run set after exactly N scheduling dispatches, every one of
which executed the body (a normal completion and a continue signal both
counting as one iteration); once Completed, a further dispatch leaves the
state unchanged without executing the body.  Moreover — covering bound N = 0,
where the block stays Running and in the run set until its first dispatch —
any dispatch that finds a Running block whose count has already reached its
bound marks it Completed and removes it from the run set without executing
the body. -/
theorem bounded_block_completes_after_n_iterations (fuel : Nat) (st : InterpState)
    (name : String) (b : Block) (N : Nat)
    (hb : lookupA st.blocks name = some b)
    (_hde : b.blockType = BlockType.de) (_hcoop : b.isParallel = false)
    (hN : b.iterations = some N) (h0 : b.currentIteration = 0)
    (hrun : b.status = BlockStatus.running)
    (hmem : st.runningBlocks.count name = 1)
    (hN1 : 1 ≤ N)
    (H : ∀ s : InterpState, ∃ s1 c, execStatements fuel s b.body = some (s1, c) ∧
        (c = Code.normal ∨ c = Code.cont) ∧
        lookupA s1.blocks name = lookupA s.blocks name ∧
        s1.runningBlocks.count name = s.runningBlocks.count name) :
    (∃ stN, dispatchN fuel st name N = some (stN, N) ∧
      lookupA stN.blocks name = some (completedAt b N) ∧
      name ∉ stN.runningBlocks ∧
      executeBlockIteration fuel stN name = some (stN, Code.normal, false)) ∧
    (∀ (st2 : InterpState) (b2 : Block), lookupA st2.blocks name = some b2 →
      b2.status = BlockStatus.running → b2.iterations = some N →
      N ≤ b2.currentIteration →
      executeBlockIteration fuel st2 name =
        some (markCompleted st2 name, Code.normal, false)) := by
  constructor
  · have hbeq : runningAt b (N - N) = b := by
      simp only [runningAt, Nat.sub_self, ← h0, ← hrun]
    have hstart : lookupA st.blocks name = some (runningAt b (N - N)) := by
      rw [hb, hbeq]
    obtain ⟨stN, hd, hlookN, hcntN⟩ :=
      dispatchN_completes_aux fuel name b N hN H N hN1 (le_refl N) st hstart hmem
    refine ⟨stN, hd, hlookN, List.count_eq_zero.mp hcntN, ?_⟩
    simp [executeBlockIteration, hlookN, completedAt]
  · intro st2 b2 hb2 hrun2 hN2 hge2
    have hab : atBound b2 = true := by
      simp [atBound, hN2, hge2]
    simp [executeBlockIteration, hb2, hrun2, hab]

/-- Witness for the C1 theorem: the bound-2 empty-bodied block completes after
exactly two dispatches. -/
theorem bounded_block_completes_witness :
    ∃ stN, dispatchN 1 boundTwoState "w" 2 = some (stN, 2) ∧
      lookupA stN.blocks "w" = some (completedAt boundTwoBlock 2) ∧
      "w" ∉ stN.runningBlocks ∧
      executeBlockIteration 1 stN "w" = some (stN, Code.normal, false) :=
  (bounded_block_completes_after_n_iterations 1 boundTwoState "w" boundTwoBlock 2
    rfl rfl rfl rfl rfl rfl (by decide) (by decide)
    (fun s => ⟨s, Code.normal, rfl, Or.inl rfl, rfl, rfl⟩)).1

/-! ### Claim C2 — hot reload transplants Running state exactly -/

theorem updateDeclarations_preserves_blocks (ds : List Decl) : ∀ st : InterpState,
    (updateDeclarations st ds).1.blocks = st.blocks ∧
    (updateDeclarations st ds).1.runningBlocks = st.runningBlocks := by
  induction ds with
  | nil => intro st; exact ⟨rfl, rfl⟩
  | cons d rest ih =>
    intro st
    cases d with
    | func f => exact ih _
    | var n v => exact ih st
    | imp m a => exact ⟨rfl, rfl⟩
    | fromImp m ns als => exact ⟨rfl, rfl⟩

theorem updateDeclarations_ok (ds : List Decl) :
    importFree ds = true → ∀ st : InterpState, (updateDeclarations st ds).2 = none := by
  induction ds with
  | nil => intro _ st; rfl
  | cons d rest ih =>
    intro hif st
    cases d with
    | func f => exact ih hif _
    | var n v => exact ih hif st
    | imp m a => simp [importFree] at hif
    | fromImp m ns als => simp [importFree] at hif

theorem foldl_installBlock_not_mem (bds : List BlockDef) : ∀ (s : InterpState) (name : String),
    name ∉ bds.map blockDefName →
    lookupA (bds.foldl installBlock s).blocks name = lookupA s.blocks name := by
  induction bds with
  | nil => intro s name _; rfl
  | cons bd rest ih =>
    intro s name hnm
    simp only [List.map_cons, List.mem_cons, not_or] at hnm
    rw [List.foldl_cons, ih (installBlock s bd) name hnm.2]
    simp only [installBlock]
    exact lookupA_insertA_ne _ _ _ _ (fun he => hnm.1 he.symm)

theorem foldl_installBlock_lookup (bds : List BlockDef) :
    ∀ (s : InterpState) (name : String) (bd : BlockDef),
    (bds.map blockDefName).Nodup → bd ∈ bds → blockDefName bd = name →
    lookupA (bds.foldl installBlock s).blocks name =
      some (carryOver (lookupA s.blocks name) bd) := by
  induction bds with
  | nil => intro s name bd _ hmem; simp at hmem
  | cons bd0 rest ih =>
    intro s name bd hnd hmem hname
    simp only [List.map_cons, List.nodup_cons] at hnd
    by_cases h0 : blockDefName bd0 = name
    · have hbd : bd = bd0 := by
        rcases List.mem_cons.mp hmem with rfl | hmem2
        · rfl
        · exact absurd (h0 ▸ hname ▸ List.mem_map_of_mem blockDefName hmem2) hnd.1
      subst hbd
      have hrest : name ∉ rest.map blockDefName := hname ▸ hnd.1
      rw [List.foldl_cons, foldl_installBlock_not_mem rest (installBlock s bd) name hrest]
      simp only [installBlock, hname]
      exact lookupA_insertA_self _ _ _
    · have hbdmem : bd ∈ rest := by
        rcases List.mem_cons.mp hmem with rfl | h
        · exact absurd hname h0
        · exact h
      rw [List.foldl_cons, ih (installBlock s bd0) name bd hnd.2 hbdmem hname]
      have hpres : lookupA (installBlock s bd0).blocks name = lookupA s.blocks name := by
        simp only [installBlock]
        exact lookupA_insertA_ne _ _ _ _ h0
      rw [hpres]

theorem foldl_removeBlock_not_mem (rem : List String) : ∀ (s : InterpState) (name : String),
    (∀ n ∈ rem, n ≠ name) →
    lookupA (rem.foldl removeBlock s).blocks name = lookupA s.blocks name := by
  induction rem with
  | nil => intro s name _; rfl
  | cons n rest ih =>
    intro s name hne
    rw [List.foldl_cons, ih (removeBlock s n) name (fun m hm => hne m (List.mem_cons_of_mem _ hm))]
    simp only [removeBlock]
    exact lookupA_eraseA_ne _ _ _ (hne n (List.mem_cons_self _ _))

theorem updateBlocksR_lookup (st : InterpState) (prog : Program) (name : String)
    (bd : BlockDef) (hnd : (prog.blocks.map blockDefName).Nodup)
    (hmem : bd ∈ prog.blocks) (hname : blockDefName bd = name) :
    lookupA (updateBlocksR st prog).blocks name =
      some (carryOver (lookupA st.blocks name) bd) := by
  have hnameIn : name ∈ prog.blocks.map blockDefName :=
    hname ▸ List.mem_map_of_mem blockDefName hmem
  unfold updateBlocksR
  have hrem : ∀ n ∈ ((prog.blocks.foldl installBlock st).blocks.map Prod.fst).filter
      (fun n => decide (n ∉ prog.blocks.map blockDefName)), n ≠ name := by
    intro n hn
    have := (List.mem_filter.mp hn).2
    simp only [decide_eq_true_eq] at this
    intro he
    exact this (he ▸ hnameIn)
  rw [foldl_removeBlock_not_mem _ _ _ hrem]
  exact foldl_installBlock_lookup prog.blocks st name bd hnd hmem hname

theorem restoreBlockState_not_mem (pres : List (String × Nat × BlockStatus)) :
    ∀ (s : InterpState) (name : String), name ∉ pres.map Prod.fst →
    lookupA (restoreBlockState s pres).blocks name = lookupA s.blocks name := by
  induction pres with
  | nil => intro s name _; rfl
  | cons p rest ih =>
    intro s name hnm
    obtain ⟨n, cnt, stat⟩ := p
    simp only [List.map_cons, List.mem_cons, not_or] at hnm
    cases hl : lookupA s.blocks n with
    | none =>
      simp only [restoreBlockState, hl]
      exact ih s name hnm.2
    | some bb =>
      simp only [restoreBlockState, hl]
      rw [ih _ name hnm.2]
      exact lookupA_insertA_ne _ _ _ _ (fun he => hnm.1 he.symm)

theorem restoreBlockState_lookup (pres : List (String × Nat × BlockStatus)) :
    ∀ (s : InterpState) (name : String) (cnt : Nat) (stat : BlockStatus) (bb : Block),
    (pres.map Prod.fst).Nodup → (name, cnt, stat) ∈ pres →
    lookupA s.blocks name = some bb →
    lookupA (restoreBlockState s pres).blocks name =
      some { bb with currentIteration := cnt, status := stat } := by
  induction pres with
  | nil => intro s name cnt stat bb _ hmem; simp at hmem
  | cons p rest ih =>
    intro s name cnt stat bb hnd hmem hl
    obtain ⟨n0, c0, s0⟩ := p
    simp only [List.map_cons, List.nodup_cons] at hnd
    by_cases h0 : n0 = name
    · subst h0
      have hhead : c0 = cnt ∧ s0 = stat := by
        rcases List.mem_cons.mp hmem with heq | hmem2
        · injection heq with h1 h2
          injection h2 with h2a h2b
          exact ⟨h2a.symm, h2b.symm⟩
        · exact absurd (List.mem_map_of_mem Prod.fst hmem2) hnd.1
      obtain ⟨rfl, rfl⟩ := hhead
      simp only [restoreBlockState, hl]
      rw [restoreBlockState_not_mem rest _ n0 hnd.1]
      exact lookupA_insertA_self _ _ _
    · have hmem2 : (name, cnt, stat) ∈ rest := by
        rcases List.mem_cons.mp hmem with heq | h
        · injection heq with h1 _
          exact absurd h1.symm h0
        · exact h
      cases hl0 : lookupA s.blocks n0 with
      | none =>
        simp only [restoreBlockState, hl0]
        exact ih s name cnt stat bb hnd.2 hmem2 hl
      | some bb0 =>
        simp only [restoreBlockState, hl0]
        refine ih _ name cnt stat bb hnd.2 hmem2 ?_
        simp only
        rw [lookupA_insertA_ne _ _ _ _ h0]
        exact hl

theorem preserveBlockState_keys_nodup (st : InterpState)
    (hnd : (st.blocks.map Prod.fst).Nodup) :
    ((preserveBlockState st).map Prod.fst).Nodup := by
  have hsub : ((preserveBlockState st).map Prod.fst).Sublist (st.blocks.map Prod.fst) := by
    unfold preserveBlockState
    induction st.blocks with
    | nil => simp
    | cons nb rest ih =>
      by_cases hr : nb.2.status = BlockStatus.running
      · simpa [hr] using ih.cons₂ nb.1
      · simpa [hr] using ih.cons nb.1
  exact hnd.sublist hsub

theorem preserveBlockState_mem_of_running (st : InterpState) (name : String) (old : Block)
    (hold : lookupA st.blocks name = some old) (hrun : old.status = BlockStatus.running) :
    (name, old.currentIteration, old.status) ∈ preserveBlockState st := by
  have hmem : (name, old) ∈ st.blocks := lookupA_mem _ _ _ hold
  unfold preserveBlockState
  exact List.mem_filterMap.mpr ⟨(name, old), hmem, by simp [hrun]⟩

theorem preserveBlockState_not_mem_of_not_running (st : InterpState) (name : String)
    (old : Block) (hnd : (st.blocks.map Prod.fst).Nodup)
    (hold : lookupA st.blocks name = some old) (hnr : old.status ≠ BlockStatus.running) :
    name ∉ (preserveBlockState st).map Prod.fst := by
  intro hmem
  obtain ⟨⟨n2, c2, s2⟩, hin, hfst⟩ := List.mem_map.mp hmem
  simp only at hfst
  subst hfst
  obtain ⟨⟨n3, b3⟩, hin3, hsome⟩ := List.mem_filterMap.mp hin
  by_cases hr : b3.status = BlockStatus.running
  · simp only [hr, if_pos, Option.some.injEq, Prod.mk.injEq] at hsome
    obtain ⟨h1, _, _⟩ := hsome
    subst h1
    have := mem_lookupA_of_nodup _ _ _ hnd hin3
    rw [hold] at this
    injection this with hb
    exact hnr (hb ▸ hr)
  · simp [hr] at hsome

theorem mkFromDef_fresh (bd : BlockDef) :
    (mkFromDef bd).currentIteration = 0 ∧ (mkFromDef bd).status = BlockStatus.stopped := by
  cases bd <;> simp [mkFromDef, mkBlock]

/-- Claim C2: for every block whose name exists in both the old registry and
the newly parsed source, a successful hot reload installs a replacement
descriptor carrying the new body; if the old block was Running at reload time
the replacement has exactly the old iteration count and the old Running status
(execution resumes with the new body), and otherwise the replacement has
status Stopped and iteration count 0. -/
theorem reload_transplants_running_state (st : InterpState) (prog : Program)
    (name : String) (old : Block) (bd : BlockDef)
    (hkeys : (st.blocks.map Prod.fst).Nodup)
    (hold : lookupA st.blocks name = some old)
    (hnames : (prog.blocks.map blockDefName).Nodup)
    (hmem : bd ∈ prog.blocks) (hname : blockDefName bd = name)
    (hif : importFree prog.declarations = true) :
    ∃ stR nb, reloadBlocks st (Except.ok prog) = (stR, true) ∧
      lookupA stR.blocks name = some nb ∧
      nb.body = (mkFromDef bd).body ∧
      nb.iterations = (mkFromDef bd).iterations ∧
      (old.status = BlockStatus.running →
        nb.currentIteration = old.currentIteration ∧ nb.status = BlockStatus.running) ∧
      (old.status ≠ BlockStatus.running →
        nb.status = BlockStatus.stopped ∧ nb.currentIteration = 0) := by
  rcases hud : updateDeclarations st prog.declarations with ⟨st1, e1⟩
  have he1 : e1 = none := by
    have := updateDeclarations_ok prog.declarations hif st
    rw [hud] at this
    exact this
  subst he1
  have hb1 : st1.blocks = st.blocks := by
    have := (updateDeclarations_preserves_blocks prog.declarations st).1
    rw [hud] at this
    exact this
  have hred : reloadBlocks st (Except.ok prog) =
      (restoreBlockState (updateBlocksR st1 prog) (preserveBlockState st), true) := by
    simp [reloadBlocks, hud]
  have hlk2 : lookupA (updateBlocksR st1 prog).blocks name =
      some (carryOver (some old) bd) := by
    have h := updateBlocksR_lookup st1 prog name bd hnames hmem hname
    rw [hb1, hold] at h
    exact h
  by_cases hrun : old.status = BlockStatus.running
  · have hpmem := preserveBlockState_mem_of_running st name old hold hrun
    have hpnd := preserveBlockState_keys_nodup st hkeys
    have hfin := restoreBlockState_lookup (preserveBlockState st) (updateBlocksR st1 prog)
      name old.currentIteration old.status (carryOver (some old) bd) hpnd hpmem hlk2
    have hco : carryOver (some old) bd =
        { mkFromDef bd with currentIteration := old.currentIteration, status := old.status } := by
      simp [carryOver, hrun]
    refine ⟨_, _, hred, hfin, ?_, ?_, ?_, ?_⟩
    · rw [hco]
    · rw [hco]
    · intro _
      exact ⟨rfl, hrun⟩
    · intro hn
      exact absurd hrun hn
  · have hco : carryOver (some old) bd = mkFromDef bd := by
      simp [carryOver, hrun]
    have hnm := preserveBlockState_not_mem_of_not_running st name old hkeys hold hrun
    have hfin := restoreBlockState_not_mem (preserveBlockState st) (updateBlocksR st1 prog)
      name hnm
    refine ⟨_, mkFromDef bd, hred, ?_, rfl, rfl, ?_, ?_⟩
    · rw [hfin, hlk2, hco]
    · intro h
      exact absurd h hrun
    · intro _
      exact ⟨(mkFromDef_fresh bd).2, (mkFromDef_fresh bd).1⟩

/-- Witness for the C2 theorem on the concrete mid-run reload. -/
theorem reload_transplants_witness :
    ∃ stR nb, reloadBlocks reloadWitnessState (Except.ok reloadWitnessProg) = (stR, true) ∧
      lookupA stR.blocks "c" = some nb ∧
      nb.body = (mkFromDef (BlockDef.deB "c" [Stmt.pass, Stmt.pass] 2)).body ∧
      nb.iterations = (mkFromDef (BlockDef.deB "c" [Stmt.pass, Stmt.pass] 2)).iterations ∧
      (reloadWitnessOld.status = BlockStatus.running →
        nb.currentIteration = reloadWitnessOld.currentIteration ∧
        nb.status = BlockStatus.running) ∧
      (reloadWitnessOld.status ≠ BlockStatus.running →
        nb.status = BlockStatus.stopped ∧ nb.currentIteration = 0) :=
  reload_transplants_running_state reloadWitnessState reloadWitnessProg "c"
    reloadWitnessOld (BlockDef.deB "c" [Stmt.pass, Stmt.pass] 2)
    (by decide) rfl (by decide) (List.mem_singleton_self _) rfl rfl

end WhenRt
